import Mathlib

/-!
Verification of the autonomous-opponent decision core of the WIM real-time
strategy game (TypeScript sources: src/systems/TerrainManager.ts, the
IntelligentUnitController module, src/ai/AdvancedAI.ts).

Modelling conventions, used throughout:

* JavaScript numbers are modelled as exact rationals.  Every finite IEEE-754
  double is a rational, and all arithmetic appearing in the verified code
  paths stays well within the range where the idealisation is faithful for
  the stated properties.
* A square root whose VALUE flows onward (Math.sqrt used to normalise a
  direction vector) is modelled by an explicit function parameter
  (sqrtA : ℚ → ℚ) standing for the IEEE square root, whose results are
  themselves rationals.  A square root that is only COMPARED against a
  constant (getDistance(p, q) < c) is embedded exactly as the equivalent
  comparison of squared distances (dist2 p q < c^2, for c > 0).
  A* f-cost comparisons, which compare g1 + sqrt a1 against g2 + sqrt a2,
  are embedded by the exact decision procedure sqrtAddLt below.
* A JavaScript Map is modelled as an association list in insertion order:
  set replaces in place when the key is present and appends otherwise;
  delete removes the entry.  Iteration is in list order.
* Only the fields read or written by the verified functions are kept on the
  record types; presentation-only fields (isSelected, playerId, ...) are
  omitted.
-/

namespace WIM

/-- Two-dimensional position (source: interface Position, with number
coordinates modelled as rationals). -/
structure Position where
  x : ℚ
  y : ℚ
deriving DecidableEq, Repr

/-- Squared Euclidean distance.  The source getDistance returns
Math.sqrt of this quantity; every use of getDistance in the verified code
compares it against a constant, and those comparisons are embedded exactly
on the square. -/
def dist2 (p q : Position) : ℚ :=
  (p.x - q.x) ^ 2 + (p.y - q.y) ^ 2

/-- Decides sqrt a < c for a nonnegative radicand a and a constant c
(exact embedding of getDistance(p,q) < c). -/
def sqrtLtC (a c : ℚ) : Bool :=
  decide (0 < c) && decide (a < c ^ 2)

/-- Decides sqrt a <= c (exact embedding of getDistance(p,q) <= c). -/
def sqrtLeC (a c : ℚ) : Bool :=
  decide (0 ≤ c) && decide (a ≤ c ^ 2)

/-- Decides c < sqrt a (exact embedding of getDistance(p,q) > c). -/
def cLtSqrt (c a : ℚ) : Bool :=
  decide (c < 0) || decide (c ^ 2 < a)

/-- Decides g1 + sqrt a1 < g2 + sqrt a2 for nonnegative radicands, by
repeated squaring.  This is the exact comparison of two A* f-costs, where
the g-parts are rational sums of tile movement costs and the h-parts are
Euclidean distances with rational squares. -/
def sqrtAddLt (g1 a1 g2 a2 : ℚ) : Bool :=
  let d := g2 - g1
  if 0 ≤ d then
    -- sqrt a1 < d + sqrt a2, both sides nonnegative: square once, and the
    -- residual comparison L < 2 d sqrt a2 squares once more.
    let L := a1 - a2 - d ^ 2
    if L < 0 then true else decide (L ^ 2 < 4 * d ^ 2 * a2)
  else
    -- sqrt a1 + (-d) < sqrt a2, both sides nonnegative.
    let R := a2 - a1 - d ^ 2
    if R ≤ 0 then false else decide (4 * d ^ 2 * a1 < R ^ 2)

/-! ### JavaScript Map model -/

/-- Lookup in a JavaScript Map (first entry with the key; keys are unique
by construction of mapSet). -/
def mapGet {α : Type} (m : List (String × α)) (k : String) : Option α :=
  (m.find? fun e => e.1 = k).map Prod.snd

/-- Membership test (Map.has). -/
def mapHas {α : Type} (m : List (String × α)) (k : String) : Bool :=
  (m.find? fun e => e.1 = k).isSome

/-- Map.set: replace in place when the key is present, append otherwise. -/
def mapSet {α : Type} (m : List (String × α)) (k : String) (v : α) :
    List (String × α) :=
  if mapHas m k then m.map fun e => if e.1 = k then (k, v) else e
  else m ++ [(k, v)]

/-- Map.delete: remove every entry with the key (at most one exists). -/
def mapDelete {α : Type} (m : List (String × α)) (k : String) :
    List (String × α) :=
  m.filter fun e => ¬ e.1 = k

/-! ### Resource zones (source: TerrainManager.ts) -/

/-- Resource category of a zone (source: ResourceZone.type). -/
inductive ResourceType where
  | oil
  | steel
  | energy
deriving DecidableEq, Repr

/-- Source: interface ResourceZone. -/
structure ResourceZone where
  id : String
  rtype : ResourceType
  position : Position
  radius : ℚ
  totalResources : ℚ
  remainingResources : ℚ
  gatheringRate : ℚ
  workersAssigned : List String
  isExhausted : Bool
deriving DecidableEq, Repr

/-- Source: TerrainManager.assignWorkerToZone.  Pushes the worker id when
the zone exists, is not exhausted and has fewer than 5 assigned workers;
there is no membership check, so an already-assigned id is pushed again. -/
def assignWorkerToZone (zones : List (String × ResourceZone))
    (workerId zoneId : String) : Bool × List (String × ResourceZone) :=
  match mapGet zones zoneId with
  | some zone =>
      if zone.isExhausted = false ∧ zone.workersAssigned.length < 5 then
        (true, mapSet zones zoneId
          { zone with workersAssigned := zone.workersAssigned ++ [workerId] })
      else (false, zones)
  | none => (false, zones)

/-- Source: TerrainManager.gatherResources.  deltaTime is in milliseconds;
the division by 1000 converts it to seconds. -/
def gatherResources (zones : List (String × ResourceZone))
    (zoneId : String) (deltaTime : ℚ) : ℚ × List (String × ResourceZone) :=
  match mapGet zones zoneId with
  | none => (0, zones)
  | some zone =>
      if zone.isExhausted = true ∨ zone.workersAssigned.length = 0 then
        (0, zones)
      else
        let gathered :=
          min (zone.gatheringRate * zone.workersAssigned.length * deltaTime / 1000)
            zone.remainingResources
        let rem := zone.remainingResources - gathered
        let zone' :=
          if rem ≤ 0 then
            { zone with remainingResources := rem, isExhausted := true,
                        workersAssigned := [] }
          else { zone with remainingResources := rem }
        (gathered, mapSet zones zoneId zone')

/-! ### Association-list map lemmas -/

theorem find_map_overwrite {α : Type} (m : List (String × α)) (k : String)
    (v : α) :
    List.find? (fun e => e.1 = k) (m.map fun e => if e.1 = k then (k, v) else e)
      = if (List.find? (fun e => e.1 = k) m).isSome then some (k, v)
        else none := by
  induction m with
  | nil => simp
  | cons e t ih =>
    by_cases h : e.1 = k
    · rw [List.map_cons, if_pos h, List.find?_cons_of_pos _ (by simp),
        List.find?_cons_of_pos _ (by simp [h])]
      simp
    · rw [List.map_cons, if_neg h, List.find?_cons_of_neg _ (by simp [h]),
        List.find?_cons_of_neg _ (by simp [h]), ih]

theorem mapGet_mapSet_self {α : Type} (m : List (String × α)) (k : String)
    (v : α) : mapGet (mapSet m k v) k = some v := by
  unfold mapGet mapSet mapHas
  by_cases h : (List.find? (fun e => e.1 = k) m).isSome = true
  · rw [if_pos h, find_map_overwrite, if_pos h]
    rfl
  · rw [if_neg h, List.find?_append]
    have hn : List.find? (fun e => decide (e.1 = k)) m = none := by
      cases hf : List.find? (fun e => decide (e.1 = k)) m with
      | none => rfl
      | some e => exact absurd (by rw [hf]; rfl) h
    rw [hn]
    simp

/-! ### Claim theorems: resource zones -/

/-- C3.  gatherResources returns exactly
min(gatheringRate * workerCount * dt, remaining) with dt the tick duration
in seconds (deltaTime / 1000 for deltaTime in milliseconds), decrements the
zone's remaining amount by exactly that quantity, keeps it nonnegative and
non-increasing, and in the step in which remaining reaches zero marks the
zone exhausted and clears its assigned-worker list. -/
theorem gatherResources_spec (zones : List (String × ResourceZone))
    (zid : String) (dt : ℚ) (z : ResourceZone)
    (hz : mapGet zones zid = some z)
    (hrem : 0 ≤ z.remainingResources)
    (hrate : 0 ≤ z.gatheringRate)
    (hdt : 0 ≤ dt)
    (hexh : z.isExhausted = true → z.workersAssigned = []) :
    (gatherResources zones zid dt).1
        = min (z.gatheringRate * z.workersAssigned.length * dt / 1000)
            z.remainingResources ∧
    ∃ z', mapGet (gatherResources zones zid dt).2 zid = some z' ∧
      z'.remainingResources = z.remainingResources - (gatherResources zones zid dt).1 ∧
      0 ≤ z'.remainingResources ∧
      z'.remainingResources ≤ z.remainingResources ∧
      (0 < z.remainingResources → z'.remainingResources = 0 →
        z'.isExhausted = true ∧ z'.workersAssigned = []) := by
  by_cases hearly : z.isExhausted = true ∨ z.workersAssigned.length = 0
  · have hzero : z.gatheringRate * z.workersAssigned.length * dt / 1000 = 0 := by
      rcases hearly with h | h
      · rw [hexh h]; simp
      · rw [h]; simp
    have hres : gatherResources zones zid dt = (0, zones) := by
      simp only [gatherResources, hz]
      rw [if_pos hearly]
    rw [hres]
    refine ⟨by rw [hzero, min_eq_left hrem], z, hz, by simp, hrem, le_refl _, ?_⟩
    intro hpos h0
    rw [h0] at hpos
    exact absurd hpos (lt_irrefl 0)
  · have hx : 0 ≤ z.gatheringRate * z.workersAssigned.length * dt / 1000 := by
      have hlen : (0 : ℚ) ≤ (z.workersAssigned.length : ℚ) := by positivity
      positivity
    have hgle : min (z.gatheringRate * z.workersAssigned.length * dt / 1000)
        z.remainingResources ≤ z.remainingResources := min_le_right _ _
    have hg0 : 0 ≤ min (z.gatheringRate * z.workersAssigned.length * dt / 1000)
        z.remainingResources := le_min hx hrem
    have key : gatherResources zones zid dt =
        (min (z.gatheringRate * z.workersAssigned.length * dt / 1000)
            z.remainingResources,
         mapSet zones zid
          (if z.remainingResources
                - min (z.gatheringRate * z.workersAssigned.length * dt / 1000)
                  z.remainingResources ≤ 0 then
            { z with
              remainingResources := (z.remainingResources
                - min (z.gatheringRate * z.workersAssigned.length * dt / 1000)
                  z.remainingResources),
              isExhausted := true, workersAssigned := [] }
          else
            { z with
              remainingResources := (z.remainingResources
                - min (z.gatheringRate * z.workersAssigned.length * dt / 1000)
                  z.remainingResources) })) := by
      simp only [gatherResources, hz]
      rw [if_neg hearly]
    rw [key]
    by_cases hle : z.remainingResources
        - min (z.gatheringRate * z.workersAssigned.length * dt / 1000)
          z.remainingResources ≤ 0
    · rw [if_pos hle]
      refine ⟨rfl, _, mapGet_mapSet_self _ _ _, rfl, ?_, ?_, fun _ _ => ⟨rfl, rfl⟩⟩
      · show 0 ≤ z.remainingResources
            - min (z.gatheringRate * z.workersAssigned.length * dt / 1000)
              z.remainingResources
        linarith
      · show z.remainingResources
            - min (z.gatheringRate * z.workersAssigned.length * dt / 1000)
              z.remainingResources ≤ z.remainingResources
        linarith
    · rw [if_neg hle]
      refine ⟨rfl, _, mapGet_mapSet_self _ _ _, rfl, ?_, ?_, ?_⟩
      · show 0 ≤ z.remainingResources
            - min (z.gatheringRate * z.workersAssigned.length * dt / 1000)
              z.remainingResources
        linarith
      · show z.remainingResources
            - min (z.gatheringRate * z.workersAssigned.length * dt / 1000)
              z.remainingResources ≤ z.remainingResources
        linarith
      · intro _ h0
        push_neg at hle
        have h0' : z.remainingResources
            - min (z.gatheringRate * z.workersAssigned.length * dt / 1000)
              z.remainingResources = 0 := h0
        rw [h0'] at hle
        exact absurd hle (lt_irrefl 0)

/-- Concrete zone used to witness the resource-gathering theorems. -/
def zoneA : ResourceZone :=
  { id := "oil_0", rtype := .oil, position := ⟨10, 10⟩, radius := 3,
    totalResources := 100, remainingResources := 100, gatheringRate := 10,
    workersAssigned := ["w1"], isExhausted := false }

/-- Witness for C3 at a concrete zone and tick. -/
theorem gatherResources_spec_witness :
    (gatherResources [("oil_0", zoneA)] "oil_0" 1000).1
        = min (zoneA.gatheringRate * zoneA.workersAssigned.length * 1000 / 1000)
            zoneA.remainingResources ∧
    ∃ z', mapGet (gatherResources [("oil_0", zoneA)] "oil_0" 1000).2 "oil_0" = some z' ∧
      z'.remainingResources
          = zoneA.remainingResources - (gatherResources [("oil_0", zoneA)] "oil_0" 1000).1 ∧
      0 ≤ z'.remainingResources ∧
      z'.remainingResources ≤ zoneA.remainingResources ∧
      (0 < zoneA.remainingResources → z'.remainingResources = 0 →
        z'.isExhausted = true ∧ z'.workersAssigned = []) :=
  gatherResources_spec [("oil_0", zoneA)] "oil_0" 1000 zoneA (by decide)
    (by decide) (by decide) (by decide) (by decide)

/-- Concrete zone with one assigned worker, used to refute idempotency of
worker assignment. -/
def zoneB : ResourceZone :=
  { id := "z1", rtype := .steel, position := ⟨5, 5⟩, radius := 3,
    totalResources := 200, remainingResources := 150, gatheringRate := 40,
    workersAssigned := ["w"], isExhausted := false }

/-- C5 counterexample.  Re-assigning the already-assigned worker w to the
zone is not a no-op: assignWorkerToZone pushes a duplicate entry, so the
worker list becomes [w, w]. -/
theorem assignWorkerToZone_not_idempotent :
    mapGet (assignWorkerToZone [("z1", zoneB)] "w" "z1").2 "z1"
        = some { zoneB with workersAssigned := ["w", "w"] } ∧
    ¬ (assignWorkerToZone [("z1", zoneB)] "w" "z1").2 = [("z1", zoneB)] := by
  constructor
  · rfl
  · decide

/-- C5 amended.  A worker joins a zone exactly when the zone exists, is not
exhausted, and has fewer than 5 assigned workers; joining appends the
worker id to the list unconditionally (an already-assigned id is appended
again, so re-assignment is not a no-op); in every other case the zone
table is unchanged and false is returned. -/
theorem assignWorkerToZone_spec (zones : List (String × ResourceZone))
    (wid zid : String) :
    (∀ z, mapGet zones zid = some z →
      (z.isExhausted = false ∧ z.workersAssigned.length < 5 →
        assignWorkerToZone zones wid zid =
          (true, mapSet zones zid
            { z with workersAssigned := z.workersAssigned ++ [wid] })) ∧
      (z.isExhausted = true ∨ 5 ≤ z.workersAssigned.length →
        assignWorkerToZone zones wid zid = (false, zones))) ∧
    (mapGet zones zid = none →
      assignWorkerToZone zones wid zid = (false, zones)) := by
  constructor
  · intro z hz
    constructor
    · intro hok
      simp only [assignWorkerToZone, hz]
      rw [if_pos hok]
    · intro hno
      simp only [assignWorkerToZone, hz]
      rw [if_neg ?_]
      rintro ⟨hex, hlen⟩
      rcases hno with h | h
      · rw [h] at hex; exact Bool.true_eq_false.mp hex
      · exact absurd hlen (not_lt.mpr h)
  · intro hz
    simp only [assignWorkerToZone, hz]

/-- Witness for the amended C5 at a concrete zone: the join succeeds and
appends, and the exhausted case is a no-op. -/
theorem assignWorkerToZone_spec_witness :
    ((zoneB.isExhausted = false ∧ zoneB.workersAssigned.length < 5 →
        assignWorkerToZone [("z1", zoneB)] "w2" "z1" =
          (true, mapSet [("z1", zoneB)] "z1"
            { zoneB with workersAssigned := zoneB.workersAssigned ++ ["w2"] })) ∧
      (zoneB.isExhausted = true ∨ 5 ≤ zoneB.workersAssigned.length →
        assignWorkerToZone [("z1", zoneB)] "w2" "z1" = (false, [("z1", zoneB)]))) :=
  (assignWorkerToZone_spec [("z1", zoneB)] "w2" "z1").1 zoneB (by decide)

/-! ### Strategic phase (source: AdvancedAI.ts) -/

/-- Source: UnitType. -/
inductive UnitType where
  | infantry
  | tank
  | drone
  | jet
  | helicopter
  | missile_launcher
  | engineer
deriving DecidableEq, Repr

/-- Source: BuildingType. -/
inductive BuildingType where
  | command_center
  | barracks
  | vehicle_factory
  | airbase
  | power_plant
  | oil_refinery
  | steel_mill
  | research_lab
  | defense_turret
deriving DecidableEq, Repr

/-- Source: interface Unit.  Fields not read by the verified functions
(playerId, isSelected, target, isMoving, lastMoved) are omitted. -/
structure GameUnit where
  id : String
  utype : UnitType
  position : Position
  health : ℚ
  maxHealth : ℚ
  damage : ℚ
  range : ℚ
  speed : ℚ
deriving DecidableEq, Repr

/-- Source: interface Building.  Fields not read by the verified functions
are omitted. -/
structure Building where
  id : String
  btype : BuildingType
  position : Position
deriving DecidableEq, Repr

/-- Source: AdvancedAI strategic phase. -/
inductive Phase where
  | early
  | mid
  | late
deriving DecidableEq, Repr

/-- Slice of EconomicPlan holding the field updateStrategicState writes. -/
structure EconomicPlan where
  targetWorkerCount : ℚ
deriving DecidableEq, Repr

/-- Slice of MilitaryPlan holding the fields updateStrategicState writes. -/
structure MilitaryPlan where
  targetArmySize : ℚ
  preferredUnits : List UnitType
deriving DecidableEq, Repr

/-- Slice of StrategicState holding the fields updateStrategicState writes
(the objective list and controlled-area hint are untouched by it). -/
structure StrategicState where
  phase : Phase
  economicPlan : EconomicPlan
  militaryPlan : MilitaryPlan
  enemyThreatLevel : ℚ
deriving DecidableEq, Repr

/-- Source: AdvancedAI.getUnitThreatValue (the default branch returns 0.5
but is unreachable: the switch enumerates every UnitType constructor). -/
def getUnitThreatValue (t : UnitType) : ℚ :=
  match t with
  | .infantry => 3 / 10
  | .tank => 8 / 10
  | .jet => 6 / 10
  | .drone => 4 / 10
  | .helicopter => 5 / 10
  | .missile_launcher => 9 / 10
  | .engineer => 1 / 10

/-- Source: AdvancedAI.calculateThreatLevel.  sqrtA models Math.sqrt (the
proximity weight uses the distance value itself, not just a comparison);
the comparison distance < 15 is embedded exactly on squares. -/
def calculateThreatLevel (sqrtA : ℚ → ℚ) (myBuildings : List Building)
    (enemyUnits : List GameUnit) : ℚ :=
  if myBuildings.length = 0 then 0
  else
    match myBuildings.find? (fun b => b.btype = .command_center) with
    | none => 0
    | some commandCenter =>
        let threatLevel := enemyUnits.foldl
          (fun acc enemy =>
            if sqrtLtC (dist2 commandCenter.position enemy.position) 15 then
              acc + (1 - sqrtA (dist2 commandCenter.position enemy.position) / 15)
                * getUnitThreatValue enemy.utype
            else acc) 0
        min (threatLevel / 5) 1

/-- Source: AdvancedAI.updateStrategicState.  The phase is recomputed from
the current unit and building counts alone; the previous phase is never
read. -/
def updateStrategicState (sqrtA : ℚ → ℚ) (s : StrategicState)
    (myUnits : List GameUnit) (myBuildings : List Building)
    (enemyUnits : List GameUnit) : StrategicState :=
  let totalUnits := myUnits.length
  let totalBuildings := myBuildings.length
  let phase : Phase :=
    if totalUnits < 10 ∧ totalBuildings < 3 then .early
    else if totalUnits < 25 ∧ totalBuildings < 6 then .mid
    else .late
  let threat := calculateThreatLevel sqrtA myBuildings enemyUnits
  let workerTarget : ℚ := match phase with
    | .early => 8
    | .mid => 12
    | .late => 16
  let armyTarget : ℚ := match phase with
    | .early => 6
    | .mid => 12
    | .late => 20
  let preferred : List UnitType :=
    if 7 / 10 < threat then [.tank, .infantry]
    else if 4 / 10 < threat then [.infantry, .drone]
    else s.militaryPlan.preferredUnits
  { phase := phase
    economicPlan := { s.economicPlan with targetWorkerCount := workerTarget }
    militaryPlan := { s.militaryPlan with
                      targetArmySize := armyTarget
                      preferredUnits := preferred }
    enemyThreatLevel := threat }

/-- C9.  The strategic phase after updateStrategicState depends only on
the current unit and building counts (no hysteresis: two runs from
different prior states and enemy snapshots agree), and the two scenario
points hold: 2 units and 1 building give phase early, 12 units and 4
buildings give phase mid. -/
theorem updateStrategicState_phase_pure (sqrtA sqrtB : ℚ → ℚ)
    (s s' : StrategicState) (myUnits myBuildings enemyUnits enemyUnits' us bs) :
    (updateStrategicState sqrtA s myUnits myBuildings enemyUnits).phase
        = (updateStrategicState sqrtB s' myUnits myBuildings enemyUnits').phase ∧
    (us.length = 2 → bs.length = 1 →
      (updateStrategicState sqrtA s us bs enemyUnits).phase = .early) ∧
    (us.length = 12 → bs.length = 4 →
      (updateStrategicState sqrtA s us bs enemyUnits).phase = .mid) := by
  refine ⟨rfl, ?_, ?_⟩
  · intro hu hb
    change (if us.length < 10 ∧ bs.length < 3 then Phase.early
      else if us.length < 25 ∧ bs.length < 6 then Phase.mid else Phase.late) = .early
    rw [hu, hb]
    decide
  · intro hu hb
    change (if us.length < 10 ∧ bs.length < 3 then Phase.early
      else if us.length < 25 ∧ bs.length < 6 then Phase.mid else Phase.late) = .mid
    rw [hu, hb]
    decide

/-- Concrete unit used by witnesses. -/
def unitA : GameUnit :=
  { id := "u1", utype := .infantry, position := ⟨5, 5⟩, health := 100,
    maxHealth := 100, damage := 10, range := 2, speed := 3 }

/-- Concrete building used by witnesses. -/
def buildingA : Building :=
  { id := "b1", btype := .command_center, position := ⟨5, 5⟩ }

/-- Concrete strategic state used by witnesses. -/
def stateA : StrategicState :=
  { phase := .late, economicPlan := { targetWorkerCount := 15 },
    militaryPlan := { targetArmySize := 15, preferredUnits := [.infantry, .tank] },
    enemyThreatLevel := 0 }

/-- Witness for C9 at concrete armies (note stateA starts in phase late,
so the scenario outcomes also exhibit the absence of hysteresis). -/
theorem updateStrategicState_phase_pure_witness :
    (updateStrategicState id stateA (List.replicate 2 unitA) [buildingA] []).phase
        = .early ∧
    (updateStrategicState id stateA (List.replicate 12 unitA)
        (List.replicate 4 buildingA) []).phase = .mid :=
  ⟨(updateStrategicState_phase_pure id id stateA stateA [] [] [] []
      (List.replicate 2 unitA) [buildingA]).2.1 rfl rfl,
   (updateStrategicState_phase_pure id id stateA stateA [] [] [] []
      (List.replicate 12 unitA) (List.replicate 4 buildingA)).2.2 rfl rfl⟩

/-! ### Combat-group formations (source: IntelligentUnitController)

The formation arithmetic can produce NaN (0/0 for a one-member defend
arc), so for this part JavaScript numbers are modelled by JsNum: an exact
rational, an infinity, or NaN, with IEEE-754 propagation rules for the
operations used.  Math.cos and Math.sin are abstract function parameters;
the facts needed about them (a finite double has a finite cosine, the
cosine of NaN is NaN) appear as hypotheses of the theorems and are true of
the IEEE implementations. -/

/-- JavaScript number: finite (an exact rational), infinite, or NaN. -/
inductive JsNum where
  | nan
  | inf (neg : Bool)
  | num (q : ℚ)
deriving DecidableEq, Repr

/-- Finiteness of a JavaScript number. -/
def JsNum.isFinite : JsNum → Bool
  | .num _ => true
  | _ => false

/-- IEEE multiplication on the JsNum model. -/
def jsMul : JsNum → JsNum → JsNum
  | .nan, _ => .nan
  | _, .nan => .nan
  | .num a, .num b => .num (a * b)
  | .inf s, .num b => if b = 0 then .nan else .inf (xor s (b < 0))
  | .num a, .inf s => if a = 0 then .nan else .inf (xor s (a < 0))
  | .inf s, .inf t => .inf (xor s t)

/-- IEEE subtraction on the JsNum model. -/
def jsSub : JsNum → JsNum → JsNum
  | .nan, _ => .nan
  | _, .nan => .nan
  | .num a, .num b => .num (a - b)
  | .inf s, .num _ => .inf s
  | .num _, .inf t => .inf (!t)
  | .inf s, .inf t => if s = t then .nan else .inf s

/-- IEEE division on the JsNum model (0/0 is NaN, x/0 is signed infinity
for x nonzero). -/
def jsDiv : JsNum → JsNum → JsNum
  | .nan, _ => .nan
  | _, .nan => .nan
  | .num a, .num b =>
      if b = 0 then (if a = 0 then .nan else .inf (decide (a < 0))) else .num (a / b)
  | .inf s, .num b => .inf (xor s (b < 0))
  | .num _, .inf _ => .num 0
  | .inf _, .inf _ => .nan

/-- Source: CombatGroup.role. -/
inductive CombatRole where
  | attack
  | defend
  | scout
  | raid
deriving DecidableEq, Repr

/-- Source: interface CombatGroup.  Formation offsets are JsNum pairs
because the defend arc can evaluate to NaN. -/
structure CombatGroup where
  id : String
  unitIds : List String
  role : CombatRole
  target : Option Position
  formation : List (JsNum × JsNum)
  leader : Option String
deriving DecidableEq, Repr

/-- Source: IntelligentUnitController.calculateFormation.  jcos and jsin
model Math.cos and Math.sin; pi models the double Math.PI.  The defend
angle is (i / (unitCount - 1)) * PI - PI / 2, the scout angle is
(i / unitCount) * 2 * PI, attack is a 2-wide line and raid a 2-column
cluster with spacing 1.5. -/
def calculateFormation (jcos jsin : JsNum → JsNum) (pi : ℚ)
    (unitCount : ℕ) (role : CombatRole) : List (JsNum × JsNum) :=
  match role with
  | .attack =>
      (List.range unitCount).map fun (i : ℕ) => (.num ((i : ℚ) * 2), .num 0)
  | .defend =>
      (List.range unitCount).map fun (i : ℕ) =>
        let arcRadius : ℚ := max 2 ((unitCount : ℚ) / 2)
        let angle := jsSub
          (jsMul (jsDiv (.num (i : ℚ)) (.num ((unitCount : ℚ) - 1))) (.num pi))
          (.num (pi / 2))
        (jsMul (jcos angle) (.num arcRadius), jsMul (jsin angle) (.num arcRadius))
  | .scout =>
      (List.range unitCount).map fun (i : ℕ) =>
        let angle := jsMul
          (jsMul (jsDiv (.num (i : ℚ)) (.num (unitCount : ℚ))) (.num 2)) (.num pi)
        (jsMul (jcos angle) (.num 3), jsMul (jsin angle) (.num 3))
  | .raid =>
      (List.range unitCount).map fun (i : ℕ) =>
        (.num ((i % 2 : ℕ) * (3 / 2 : ℚ)), .num ((i / 2 : ℕ) * (3 / 2 : ℚ)))

/-- Source: IntelligentUnitController.createCombatGroup.  The generated
group id (timestamp plus random suffix) is passed in as a parameter; the
formation table is computed from the member count at creation time and
the first member becomes the leader. -/
def createCombatGroup (groupId : String) (unitIds : List String)
    (role : CombatRole) (target : Option Position)
    (jcos jsin : JsNum → JsNum) (pi : ℚ) : CombatGroup :=
  { id := groupId
    unitIds := unitIds
    role := role
    target := target
    formation := calculateFormation jcos jsin pi unitIds.length role
    leader := unitIds.head? }

/-- C10.  A defend group with exactly one member gets the formation table
[(NaN, NaN)] — the arc angle divides by unitCount - 1 = 0 as 0/0 — while
for every other role, and for defend with at least two members, every
formation offset is finite.  The hypotheses state the IEEE facts used
about Math.cos and Math.sin: finite inputs give finite outputs and NaN
propagates. -/
theorem calculateFormation_defend_singleton_nan
    (jcos jsin : JsNum → JsNum) (pi : ℚ)
    (hcosf : ∀ q : ℚ, ∃ r : ℚ, jcos (.num q) = .num r)
    (hcosn : jcos .nan = .nan)
    (hsinf : ∀ q : ℚ, ∃ r : ℚ, jsin (.num q) = .num r)
    (hsinn : jsin .nan = .nan) :
    (∀ gid uid target,
      (createCombatGroup gid [uid] .defend target jcos jsin pi).formation
        = [(.nan, .nan)]) ∧
    (∀ (count : ℕ) (role : CombatRole), (role ≠ .defend ∨ 2 ≤ count) →
      ∀ p ∈ calculateFormation jcos jsin pi count role,
        p.1.isFinite = true ∧ p.2.isFinite = true) := by
  constructor
  · intro gid uid target
    have hangle : jsSub
        (jsMul (jsDiv (.num ((0 : ℕ) : ℚ)) (.num (((1 : ℕ) : ℚ) - 1))) (.num pi))
        (.num (pi / 2)) = .nan := by
      have hd : jsDiv (.num ((0 : ℕ) : ℚ)) (.num (((1 : ℕ) : ℚ) - 1)) = .nan := by
        have e1 : (((1 : ℕ) : ℚ) - 1) = 0 := by norm_num
        have e0 : (((0 : ℕ) : ℚ)) = 0 := by norm_num
        rw [e1, e0]
        rfl
      rw [hd]
      rfl
    change [(jsMul (jcos (jsSub
        (jsMul (jsDiv (.num ((0 : ℕ) : ℚ)) (.num (((1 : ℕ) : ℚ) - 1))) (.num pi))
        (.num (pi / 2)))) (.num (max 2 (((1 : ℕ) : ℚ) / 2))),
      jsMul (jsin (jsSub
        (jsMul (jsDiv (.num ((0 : ℕ) : ℚ)) (.num (((1 : ℕ) : ℚ) - 1))) (.num pi))
        (.num (pi / 2)))) (.num (max 2 (((1 : ℕ) : ℚ) / 2))))]
      = [((.nan : JsNum), (.nan : JsNum))]
    rw [hangle, hcosn, hsinn]
    rfl
  · intro count role hrole p hp
    cases role with
    | attack =>
        simp only [calculateFormation, List.mem_map] at hp
        obtain ⟨i, _, rfl⟩ := hp
        exact ⟨rfl, rfl⟩
    | raid =>
        simp only [calculateFormation, List.mem_map] at hp
        obtain ⟨i, _, rfl⟩ := hp
        exact ⟨rfl, rfl⟩
    | scout =>
        simp only [calculateFormation, List.mem_map] at hp
        obtain ⟨i, hi, rfl⟩ := hp
        have hcount : ((count : ℚ)) ≠ 0 := by
          have hpos : 0 < count := lt_of_le_of_lt (Nat.zero_le i) (List.mem_range.mp hi)
          exact Nat.cast_ne_zero.mpr hpos.ne'
        have hdiv : jsDiv (.num (i : ℚ)) (.num (count : ℚ))
            = .num ((i : ℚ) / (count : ℚ)) := by
          show (if ((count : ℚ)) = 0 then _ else _) = _
          rw [if_neg hcount]
        have hangle : jsMul (jsMul (.num ((i : ℚ) / (count : ℚ))) (.num 2)) (.num pi)
            = .num ((i : ℚ) / (count : ℚ) * 2 * pi) := rfl
        obtain ⟨r, hr⟩ := hcosf ((i : ℚ) / (count : ℚ) * 2 * pi)
        obtain ⟨r', hr'⟩ := hsinf ((i : ℚ) / (count : ℚ) * 2 * pi)
        refine ⟨?_, ?_⟩
        · show (jsMul (jcos (jsMul (jsMul (jsDiv (.num (i : ℚ)) (.num (count : ℚ)))
              (.num 2)) (.num pi))) (.num 3)).isFinite = true
          rw [hdiv, hangle, hr]
          rfl
        · show (jsMul (jsin (jsMul (jsMul (jsDiv (.num (i : ℚ)) (.num (count : ℚ)))
              (.num 2)) (.num pi))) (.num 3)).isFinite = true
          rw [hdiv, hangle, hr']
          rfl
    | defend =>
        have hc : 2 ≤ count := by
          rcases hrole with h | h
          · exact absurd rfl h
          · exact h
        simp only [calculateFormation, List.mem_map] at hp
        obtain ⟨i, _, rfl⟩ := hp
        have hden : (((count : ℚ) - 1)) ≠ 0 := by
          have h1 : (2 : ℚ) ≤ (count : ℚ) := by exact_mod_cast hc
          intro h
          have : (count : ℚ) = 1 := by linarith
          linarith
        have hdiv : jsDiv (.num (i : ℚ)) (.num ((count : ℚ) - 1))
            = .num ((i : ℚ) / ((count : ℚ) - 1)) := by
          show (if (((count : ℚ) - 1)) = 0 then _ else _) = _
          rw [if_neg hden]
        have hangle : jsSub (jsMul (.num ((i : ℚ) / ((count : ℚ) - 1))) (.num pi))
            (.num (pi / 2)) = .num ((i : ℚ) / ((count : ℚ) - 1) * pi - pi / 2) := rfl
        obtain ⟨r, hr⟩ := hcosf ((i : ℚ) / ((count : ℚ) - 1) * pi - pi / 2)
        obtain ⟨r', hr'⟩ := hsinf ((i : ℚ) / ((count : ℚ) - 1) * pi - pi / 2)
        refine ⟨?_, ?_⟩
        · show (jsMul (jcos (jsSub (jsMul (jsDiv (.num (i : ℚ))
              (.num ((count : ℚ) - 1))) (.num pi)) (.num (pi / 2))))
              (.num (max 2 ((count : ℚ) / 2)))).isFinite = true
          rw [hdiv, hangle, hr]
          rfl
        · show (jsMul (jsin (jsSub (jsMul (jsDiv (.num (i : ℚ))
              (.num ((count : ℚ) - 1))) (.num pi)) (.num (pi / 2))))
              (.num (max 2 ((count : ℚ) / 2)))).isFinite = true
          rw [hdiv, hangle, hr']
          rfl

/-- Concrete stand-ins for Math.cos and Math.sin used by the witness: any
function that is finite on finite inputs and propagates NaN fits the
theorem's hypotheses. -/
def cosA : JsNum → JsNum
  | .num _ => .num 1
  | _ => .nan

/-- Witness for C10: with concrete trigonometric stand-ins, a one-member
defend group's formation is [(NaN, NaN)] while a two-member defend
formation entry is finite. -/
theorem calculateFormation_defend_singleton_nan_witness :
    (createCombatGroup "g" ["u1"] .defend none cosA cosA (314159 / 100000)).formation
        = [(.nan, .nan)] ∧
    ((.num (((0 : ℕ) : ℚ) * 2) : JsNum), (.num 0 : JsNum)).1.isFinite = true ∧
    ((.num (((0 : ℕ) : ℚ) * 2) : JsNum), (.num 0 : JsNum)).2.isFinite = true := by
  have h := calculateFormation_defend_singleton_nan cosA cosA (314159 / 100000)
    (fun q => ⟨1, rfl⟩) rfl (fun q => ⟨1, rfl⟩) rfl
  refine ⟨h.1 "g" "u1" none,
    h.2 1 .attack (Or.inl (by decide)) (.num (((0 : ℕ) : ℚ) * 2), .num 0) ?_⟩
  change ((.num (((0 : ℕ) : ℚ) * 2) : JsNum), (.num 0 : JsNum))
      ∈ [((.num (((0 : ℕ) : ℚ) * 2) : JsNum), (.num 0 : JsNum))]
  exact List.mem_singleton.mpr rfl

/-! ### Terrain grid and A* pathfinding (source: TerrainManager.ts) -/

/-- Source: TerrainTile.type. -/
inductive TerrainType where
  | grass
  | water
  | mountain
  | forest
  | road
deriving DecidableEq, Repr

/-- Source: interface TerrainTile.  The tile position is implicit in the
grid indices; impassable tiles carry movement cost Infinity in the source,
modelled by a large rational that findPath never reads (isPassable rejects
the tile before its cost is queried). -/
structure Tile where
  ttype : TerrainType
  isPassable : Bool
  movementCost : ℚ
deriving DecidableEq, Repr

/-- Source: the TerrainManager fields used by pathfinding and the zone
API.  terrain is the row-major tile array terrain[y][x]. -/
structure TerrainManager where
  width : ℕ
  height : ℕ
  terrain : List (List Tile)
  resourceZones : List (String × ResourceZone)

/-- JavaScript array indexing terrain[y][x]: undefined (none) for a
negative, fractional, or out-of-range index. -/
def lookupTile (terrain : List (List Tile)) (p : Position) : Option Tile :=
  if p.y.den = 1 ∧ p.x.den = 1 ∧ 0 ≤ p.y.num ∧ 0 ≤ p.x.num then
    match terrain.get? p.y.num.toNat with
    | some row => row.get? p.x.num.toNat
    | none => none
  else none

/-- Source: TerrainManager.isPassable.  A position is passable when its
tile exists and is passable, no building lies within distance 2.5, and no
unit lies within distance 0.8 (both comparisons embedded on squares). -/
def isPassable (tm : TerrainManager) (p : Position) (units : List GameUnit)
    (buildings : List Building) : Bool :=
  match lookupTile tm.terrain p with
  | none => false
  | some tile =>
      tile.isPassable &&
      (buildings.all fun b => ! sqrtLtC (dist2 p b.position) (5 / 2)) &&
      decide ((units.filter fun u => sqrtLtC (dist2 p u.position) (4 / 5)).length < 1)

/-- Source: TerrainManager.getMovementCost (Infinity for a missing tile,
modelled by a large rational; findPath only calls this on positions that
already passed isPassable, so the branch is never taken there). -/
def getMovementCost (tm : TerrainManager) (p : Position) : ℚ :=
  match lookupTile tm.terrain p with
  | none => 1000000000
  | some tile => tile.movementCost

/-- Source: TerrainManager.getNeighbors.  The eight offsets are listed in
the source's loop order (dy outer from -1 to 1, dx inner), bounds-checked
against the map size. -/
def getNeighbors (tm : TerrainManager) (p : Position) : List Position :=
  ([(-1, -1), (0, -1), (1, -1), (-1, 0), (1, 0), (-1, 1), (0, 1), (1, 1)]
      : List (ℚ × ℚ)).filterMap fun o =>
    let q : Position := ⟨p.x + o.1, p.y + o.2⟩
    if 0 ≤ q.x ∧ q.x < (tm.width : ℚ) ∧ 0 ≤ q.y ∧ q.y < (tm.height : ℚ) then
      some q
    else none

/-- Source: interface PathNode.  gCost is the accumulated movement cost;
hCost2 is the SQUARE of the stored hCost (the Euclidean distance to the
goal), so the source's fCost gCost + hCost is gCost + sqrt hCost2 and
f-cost comparisons go through sqrtAddLt.  parent links reproduce the
source's parent pointers (a parent is always an already-closed node, whose
chain is frozen, so value semantics are exact). -/
inductive PNode : Type where
  | mk : Position → ℚ → ℚ → Option PNode → PNode

/-- Node position. -/
def PNode.pos : PNode → Position
  | .mk p _ _ _ => p

/-- Node g-cost. -/
def PNode.gCost : PNode → ℚ
  | .mk _ g _ _ => g

/-- Square of the node h-cost. -/
def PNode.hCost2 : PNode → ℚ
  | .mk _ _ h _ => h

/-- Node parent link. -/
def PNode.parent : PNode → Option PNode
  | .mk _ _ _ par => par

/-- Exact comparison fCost a < fCost b, that is
gCost a + sqrt hCost2 a < gCost b + sqrt hCost2 b. -/
def fLt (a b : PNode) : Bool :=
  sqrtAddLt a.gCost a.hCost2 b.gCost b.hCost2

/-- Source: the lowest-fCost scan at the top of the while loop (strict
improvement keeps the earliest minimum) fused with the splice that removes
it: returns the selected node and the remaining open set in order. -/
def pickMin : PNode → List PNode → PNode × List PNode
  | cur, [] => (cur, [])
  | cur, n :: rest =>
      if fLt n cur then
        let r := pickMin n rest
        (r.1, cur :: r.2)
      else
        let r := pickMin cur rest
        (r.1, n :: r.2)

/-- Source: TerrainManager.reconstructPath (walk parent links from the
goal node, unshifting, so the start comes first). -/
def reconstructPath : PNode → List Position
  | .mk p _ _ none => [p]
  | .mk p _ _ (some par) => reconstructPath par ++ [p]

/-- Source: the openSet.find scanning for a node at this position
(coordinates compared componentwise). -/
def findInOpen (openSet : List PNode) (p : Position) : Option PNode :=
  openSet.find? fun n => n.pos.x = p.x ∧ n.pos.y = p.y

/-- Source: the in-place update of an existing open node: new gCost, new
fCost from the kept hCost, new parent. -/
def updateOpen (openSet : List PNode) (p : Position) (g : ℚ) (parent : PNode) :
    List PNode :=
  openSet.map fun n =>
    if n.pos.x = p.x ∧ n.pos.y = p.y then .mk n.pos g n.hCost2 (some parent)
    else n

/-- Source: the body of the neighbor loop in findPath: skip closed or
impassable neighbors, push unseen ones with parent = current, and relax
already-open ones on a strictly better gCost.  The closed set holds
positions (the source keys it by the string x + comma + y, which is in
bijection with the coordinate pair). -/
def processNeighbor (tm : TerrainManager) (units : List GameUnit)
    (buildings : List Building) (goal : Position) (cur : PNode)
    (closed : List Position) (openSet : List PNode) (nb : Position) :
    List PNode :=
  if closed.contains nb || ! isPassable tm nb units buildings then openSet
  else
    let g := cur.gCost + getMovementCost tm nb
    let h2 := dist2 nb goal
    match findInOpen openSet nb with
    | none => openSet ++ [.mk nb g h2 (some cur)]
    | some existing =>
        if g < existing.gCost then updateOpen openSet nb g cur else openSet

/-- Exit status of the A* while loop.  found is the early return through
reconstructPath, exhausted is the open set running empty (the source then
returns the fallback), fuelOut is a modelling artifact: the loop closes a
fresh position of the bounded grid on every iteration, so with fuel
width * height + 2 it always exits through found or exhausted. -/
inductive AStarOutcome where
  | found (path : List Position)
  | exhausted
  | fuelOut
deriving DecidableEq, Repr

/-- Source: the while loop of TerrainManager.findPath: pop the open node
with the lowest fCost, close it, return the reconstructed path when it is
within distance 1 of the goal, otherwise fold the neighbor processing over
the eight neighbors and continue. -/
def aStarLoop (tm : TerrainManager) (units : List GameUnit)
    (buildings : List Building) (goal : Position) :
    ℕ → List PNode → List Position → AStarOutcome
  | 0, _, _ => .fuelOut
  | fuel + 1, openSet, closed =>
      match openSet with
      | [] => .exhausted
      | n0 :: rest =>
          let pick := pickMin n0 rest
          let closed' := pick.1.pos :: closed
          if sqrtLtC (dist2 pick.1.pos goal) 1 then
            .found (reconstructPath pick.1)
          else
            aStarLoop tm units buildings goal fuel
              ((getNeighbors tm pick.1.pos).foldl
                (processNeighbor tm units buildings goal pick.1 closed') pick.2)
              closed'

/-- Source: TerrainManager.findPath.  The start node has gCost 0 and
hCost the distance to the goal; on open-set exhaustion the fallback is the
single-point path [end]. -/
def findPath (tm : TerrainManager) (start goal : Position)
    (units : List GameUnit) (buildings : List Building) : List Position :=
  match aStarLoop tm units buildings goal (tm.width * tm.height + 2)
      [.mk start 0 (dist2 start goal) none] [] with
  | .found p => p
  | .exhausted => [goal]
  | .fuelOut => [goal]

/-- Open grass tile (movement cost 1). -/
def tileG : Tile := { ttype := .grass, isPassable := true, movementCost := 1 }

/-- Impassable mountain tile (cost Infinity in the source, never read). -/
def tileM : Tile :=
  { ttype := .mountain, isPassable := false, movementCost := 1000000000 }

/-- 3 by 3 all-passable grid. -/
def tmOpen3 : TerrainManager :=
  { width := 3, height := 3,
    terrain := List.replicate 3 (List.replicate 3 tileG),
    resourceZones := [] }

/-- 3 by 3 grid whose only passable tile is the corner (0,0): every
neighbor of the start is rejected, so the A* open set empties. -/
def tmBlocked : TerrainManager :=
  { width := 3, height := 3,
    terrain := [[tileG, tileM, tileM], [tileM, tileM, tileM], [tileM, tileM, tileM]],
    resourceZones := [] }

/-- C2 counterexample.  From (0,0) to (2,2) on the blocked grid the open
set empties, and the fallback actually returned is the ONE-point path
[goal], not the claimed two-point path [start, goal]. -/
theorem findPath_fallback_counterexample :
    aStarLoop tmBlocked [] [] ⟨2, 2⟩ (tmBlocked.width * tmBlocked.height + 2)
        [.mk ⟨0, 0⟩ 0 (dist2 ⟨0, 0⟩ ⟨2, 2⟩) none] [] = .exhausted ∧
    findPath tmBlocked ⟨0, 0⟩ ⟨2, 2⟩ [] [] = [⟨2, 2⟩] ∧
    findPath tmBlocked ⟨0, 0⟩ ⟨2, 2⟩ [] [] ≠ [⟨0, 0⟩, ⟨2, 2⟩] := by
  have h2 : findPath tmBlocked ⟨0, 0⟩ ⟨2, 2⟩ [] [] = [⟨2, 2⟩] := by
    with_unfolding_all rfl
  refine ⟨by with_unfolding_all rfl, h2, ?_⟩
  rw [h2]
  intro hc
  have hlen := congrArg List.length hc
  simp at hlen

/-- C2 amended.  Whenever the A* loop exits because the open set emptied
without reaching the goal, findPath returns the one-point fallback path
[goal] (the source returns [end], not [start, end]). -/
theorem findPath_exhausted_fallback (tm : TerrainManager)
    (start goal : Position) (units : List GameUnit)
    (buildings : List Building)
    (h : aStarLoop tm units buildings goal (tm.width * tm.height + 2)
        [.mk start 0 (dist2 start goal) none] [] = .exhausted) :
    findPath tm start goal units buildings = [goal] := by
  unfold findPath
  rw [h]

/-- Witness for the amended C2 at the blocked grid. -/
theorem findPath_exhausted_fallback_witness :
    findPath tmBlocked ⟨0, 0⟩ ⟨2, 2⟩ [] [] = [⟨2, 2⟩] :=
  findPath_exhausted_fallback tmBlocked ⟨0, 0⟩ ⟨2, 2⟩ [] []
    (by with_unfolding_all rfl)

/-- Source: UnitCommand.type. -/
inductive CommandType where
  | move
  | attack
  | gather
  | patrol
  | guard
  | build_assist
deriving DecidableEq, Repr

/-- Source: UnitCommand.target, a Position or an entity id string. -/
inductive CommandTarget where
  | pos (p : Position)
  | entity (id : String)
deriving DecidableEq, Repr

/-- Source: UnitCommand.issuedBy. -/
inductive Issuer where
  | player
  | ai
deriving DecidableEq, Repr

/-- Source: interface UnitCommand. -/
structure UnitCommand where
  id : String
  unitId : String
  ctype : CommandType
  target : CommandTarget
  priority : ℚ
  createdAt : ℚ
  issuedBy : Issuer
deriving DecidableEq, Repr

/-- Source: interface ThreatAssessment (the record, named Threat here to
avoid clashing with the update routine). -/
structure Threat where
  enemyUnitId : String
  position : Position
  threatLevel : ℚ
  utype : UnitType
  lastSeen : ℚ
  isEngaged : Bool
deriving DecidableEq, Repr

/-- The mutable state of IntelligentUnitController: the owned
TerrainManager and the three tables.  Combat groups are kept separately
(createCombatGroup above) since processCommands never touches them. -/
structure Ctrl where
  tm : TerrainManager
  activeCommands : List (String × UnitCommand)
  threatMap : List (String × Threat)
  unitPaths : List (String × List Position)

/-- Source: the generated command ids
move_(unitId)_(Date.now()) and attack_(unitId)_(Date.now()). -/
def genId (pfx uid : String) (t : ℚ) : String :=
  pfx ++ "_" ++ uid ++ "_" ++ toString t

/-- Source: IntelligentUnitController.issueCommand — the table is keyed
by command.id, not by unit id. -/
def issueCommand (st : Ctrl) (c : UnitCommand) : Ctrl :=
  { st with activeCommands := mapSet st.activeCommands c.id c }

/-- Source: IntelligentUnitController.calculateThreatLevel (the per-unit
one; every UnitType constructor is covered, so the initial value 1 is
always overwritten). -/
def calculateThreatLevelUnit (enemy : GameUnit) : ℚ :=
  (match enemy.utype with
    | .tank => 9 / 10
    | .missile_launcher => 1
    | .jet => 7 / 10
    | .helicopter => 6 / 10
    | .infantry => 3 / 10
    | .drone => 4 / 10
    | .engineer => 1 / 10) * (enemy.health / enemy.maxHealth)

/-- Source: IntelligentUnitController.updateThreatAssessment: prune
entries unseen for more than 30000 ms, then overwrite-by-id from the
current enemy snapshot with lastSeen = now. -/
def updateThreatAssessment (now : ℚ) (enemyUnits : List GameUnit)
    (st : Ctrl) : Ctrl :=
  let pruned := st.threatMap.filter fun e => ¬ (now - e.2.lastSeen > 30000)
  { st with threatMap := (enemyUnits.foldl
      (fun m enemy => mapSet m enemy.id
        { enemyUnitId := enemy.id
          position := enemy.position
          threatLevel := calculateThreatLevelUnit enemy
          utype := enemy.utype
          lastSeen := now
          isEngaged := false })
      pruned) }

/-- Source: IntelligentUnitController.getThreatMap. -/
def getThreatMap (st : Ctrl) : List Threat :=
  st.threatMap.map Prod.snd

/-- Source: TerrainManager.getResourceZones. -/
def getResourceZones (tm : TerrainManager) : List ResourceZone :=
  tm.resourceZones.map Prod.snd

/-- In-place mutation of the first unit with the given id (the source
mutates the object units.find returned). -/
def updateUnit : List GameUnit → String → (GameUnit → GameUnit) → List GameUnit
  | [], _, _ => []
  | u :: rest, uid, f =>
      if u.id = uid then f u :: rest else u :: updateUnit rest uid f

/-- Source: executeMoveCommand.  Within epsilon 1 of the target the unit's
command table entry AT KEY unit.id is deleted (the goal-reached branch);
otherwise the cached path is used or recomputed, and the unit advances
speed * 0.016 along the normalised direction to the second waypoint,
shifting the cached path once within 0.5 of it. -/
def executeMoveCommand (sqrtA : ℚ → ℚ) (units : List GameUnit)
    (buildings : List Building) (unit : GameUnit) (target : Position)
    (st : Ctrl) : Ctrl × List GameUnit :=
  if sqrtLtC (dist2 unit.position target) 1 then
    ({ st with activeCommands := mapDelete st.activeCommands unit.id }, units)
  else
    let cached := mapGet st.unitPaths unit.id
    let recompute := match cached with
      | none => true
      | some p => p.length = 0
    let path := if recompute then findPath st.tm unit.position target units buildings
      else cached.getD []
    let st1 := if recompute
      then { st with unitPaths := mapSet st.unitPaths unit.id path } else st
    match path with
    | _ :: nextPoint :: _ =>
        let moveDistance := unit.speed * (16 / 1000)
        let dl := sqrtA (dist2 unit.position nextPoint)
        if dl > 0 then
          let newPos : Position :=
            ⟨unit.position.x + (nextPoint.x - unit.position.x) / dl * moveDistance,
             unit.position.y + (nextPoint.y - unit.position.y) / dl * moveDistance⟩
          let units' := updateUnit units unit.id fun u => { u with position := newPos }
          if sqrtLtC (dist2 newPos nextPoint) (1 / 2) then
            ({ st1 with unitPaths := mapSet st1.unitPaths unit.id (path.drop 1) },
             units')
          else (st1, units')
        else (st1, units)
    | _ => (st1, units)

/-- Source: performAttack: damage = min(attacker.damage, target.health)
is subtracted from the target's health, and at zero the ATTACKER's table
entry at key attacker.id is deleted. -/
def performAttack (attacker target : GameUnit) (units : List GameUnit)
    (st : Ctrl) : Ctrl × List GameUnit :=
  let damage := min attacker.damage target.health
  let units' := updateUnit units target.id fun u => { u with health := u.health - damage }
  if target.health - damage ≤ 0 then
    ({ st with activeCommands := mapDelete st.activeCommands attacker.id }, units')
  else (st, units')

/-- Source: executeAttackCommand: missing target deletes the entry at key
unit.id; in range performs the attack; out of range issues a fresh move
command keyed by its generated id. -/
def executeAttackCommand (now : ℚ) (units : List GameUnit)
    (unit : GameUnit) (targetId : String) (st : Ctrl) :
    Ctrl × List GameUnit :=
  match units.find? (fun u => u.id = targetId) with
  | none => ({ st with activeCommands := mapDelete st.activeCommands unit.id }, units)
  | some target =>
      if sqrtLeC (dist2 unit.position target.position) unit.range then
        performAttack unit target units st
      else
        (issueCommand st
          { id := genId "move" unit.id now, unitId := unit.id, ctype := .move,
            target := .pos target.position, priority := 8, createdAt := now,
            issuedBy := .ai }, units)

/-- Source: executeGatherCommand: a missing or exhausted zone deletes the
entry at key unit.id; inside the zone radius the worker is registered
(guarded by an includes check); outside, a fresh move command toward the
zone center is issued. -/
def executeGatherCommand (now : ℚ) (unit : GameUnit) (zoneId : String)
    (st : Ctrl) : Ctrl :=
  match (getResourceZones st.tm).find? (fun z => z.id = zoneId) with
  | none => { st with activeCommands := mapDelete st.activeCommands unit.id }
  | some zone =>
      if zone.isExhausted then
        { st with activeCommands := mapDelete st.activeCommands unit.id }
      else if sqrtLeC (dist2 unit.position zone.position) zone.radius then
        if zone.workersAssigned.contains unit.id then st
        else { st with tm := { st.tm with
          resourceZones := (assignWorkerToZone st.tm.resourceZones unit.id zoneId).2 } }
      else
        issueCommand st
          { id := genId "move" unit.id now, unitId := unit.id, ctype := .move,
            target := .pos zone.position, priority := 5, createdAt := now,
            issuedBy := .ai }

/-- Source: executePatrolCommand.  startPos is read from the unit's
CURRENT position (the source comment concedes the original position is
not stored), so the distance comparison always selects the patrol point,
and the body delegates to executeMoveCommand. -/
def executePatrolCommand (sqrtA : ℚ → ℚ) (units : List GameUnit)
    (buildings : List Building) (unit : GameUnit) (patrolPoint : Position)
    (st : Ctrl) : Ctrl × List GameUnit :=
  let startPos := unit.position
  let target := if dist2 unit.position patrolPoint < dist2 unit.position startPos
    then startPos else patrolPoint
  executeMoveCommand sqrtA units buildings unit target st

/-- Source: executeGuardCommand: a missing guard target deletes the entry
at key unit.id; farther than 3 from it a fresh move command is issued;
any threat within 8 of the guard target triggers a fresh attack command
against the nearest one. -/
def executeGuardCommand (now : ℚ) (units : List GameUnit)
    (unit : GameUnit) (targetId : String) (st : Ctrl) : Ctrl :=
  match units.find? (fun u => u.id = targetId) with
  | none => { st with activeCommands := mapDelete st.activeCommands unit.id }
  | some guardTarget =>
      let st1 := if cLtSqrt 3 (dist2 unit.position guardTarget.position) then
          issueCommand st
            { id := genId "move" unit.id now, unitId := unit.id, ctype := .move,
              target := .pos guardTarget.position, priority := 6,
              createdAt := now, issuedBy := .ai }
        else st
      match (st.threatMap.map Prod.snd).filter
          (fun th => sqrtLtC (dist2 th.position guardTarget.position) 8) with
      | [] => st1
      | t0 :: rest =>
          let closest := rest.foldl
            (fun closest th =>
              if dist2 th.position unit.position
                  < dist2 closest.position unit.position then th else closest) t0
          issueCommand st1
            { id := genId "attack" unit.id now, unitId := unit.id,
              ctype := .attack, target := .entity closest.enemyUnitId,
              priority := 9, createdAt := now, issuedBy := .ai }

/-- Source: the switch in processCommands dispatching on command.type
with the matching unchecked target cast.  build_assist has no case in the
switch; a command whose target variant mismatches its type cannot be
built through any code path of the source, and is a no-op here. -/
def execCommand (now : ℚ) (sqrtA : ℚ → ℚ) (buildings : List Building)
    (units : List GameUnit) (cmd : UnitCommand) (unit : GameUnit)
    (st : Ctrl) : Ctrl × List GameUnit :=
  match cmd.ctype, cmd.target with
  | .move, .pos p => executeMoveCommand sqrtA units buildings unit p st
  | .attack, .entity tid => executeAttackCommand now units unit tid st
  | .gather, .entity zid => (executeGatherCommand now unit zid st, units)
  | .patrol, .pos p => executePatrolCommand sqrtA units buildings unit p st
  | .guard, .entity tid => (executeGuardCommand now units unit tid st, units)
  | _, _ => (st, units)

/-- The Map iterator position: the next visited entry is the first whose
key is not yet in done. -/
def firstUnvisited (m : List (String × UnitCommand)) (done : List String) :
    Option (String × UnitCommand) :=
  m.find? fun e => ¬ done.contains e.1

/-- Source: the commandsToRemove.forEach(delete) epilogue. -/
def finishCommands (toRemove : List String) (st : Ctrl)
    (units : List GameUnit) : Ctrl × List GameUnit :=
  ({ st with activeCommands := toRemove.foldl mapDelete st.activeCommands }, units)

/-- Source: the entry loop of processCommands.  Each visit looks up the
commanded unit in the CURRENT unit list (missing unit: mark for removal
and continue), executes the command, and marks the visited key for
removal when the visited command is older than 60000 ms.  Fuel bounds the
iteration count; processCommands passes enough for every initial and
generatable key (see processLoop_no_stale). -/
def processLoop (now : ℚ) (sqrtA : ℚ → ℚ) (buildings : List Building) :
    ℕ → List String → List String → Ctrl → List GameUnit →
    Ctrl × List GameUnit
  | 0, _, toRemove, st, units => finishCommands toRemove st units
  | fuel + 1, done, toRemove, st, units =>
      match firstUnvisited st.activeCommands done with
      | none => finishCommands toRemove st units
      | some (k, cmd) =>
          match units.find? (fun u => u.id = cmd.unitId) with
          | none =>
              processLoop now sqrtA buildings fuel (k :: done)
                (toRemove ++ [k]) st units
          | some unit =>
              processLoop now sqrtA buildings fuel (k :: done)
                (if now - cmd.createdAt > 60000 then toRemove ++ [k] else toRemove)
                (execCommand now sqrtA buildings units cmd unit st).1
                (execCommand now sqrtA buildings units cmd unit st).2

/-- Source: IntelligentUnitController.processCommands. -/
def processCommands (now : ℚ) (sqrtA : ℚ → ℚ) (units : List GameUnit)
    (buildings : List Building) (st : Ctrl) : Ctrl × List GameUnit :=
  processLoop now sqrtA buildings
    (st.activeCommands.length + 2 * units.length + 1) [] [] st units

/-! ### Lemmas about the Map model and command execution -/

/-- Keys of an association-list map. -/
def keysOf {α : Type} (m : List (String × α)) : List String :=
  m.map Prod.fst

/-- Ids of a unit list. -/
def unitIds (units : List GameUnit) : List String :=
  units.map GameUnit.id

/-- Every command id the processing of one tick can generate: a move and
an attack id per unit. -/
def genKeys (ids : List String) (now : ℚ) : List String :=
  ids.flatMap fun i => [genId "move" i now, genId "attack" i now]

theorem mem_mapDelete {α : Type} {m : List (String × α)} {k : String}
    {e : String × α} (h : e ∈ mapDelete m k) : e ∈ m ∧ ¬ e.1 = k := by
  unfold mapDelete at h
  have h' := List.mem_filter.mp h
  exact ⟨h'.1, by simpa using h'.2⟩

theorem mem_mapSet {α : Type} {m : List (String × α)} {k : String} {v : α}
    {e : String × α} (h : e ∈ mapSet m k v) : e ∈ m ∨ e = (k, v) := by
  unfold mapSet at h
  split at h
  · obtain ⟨a, ha, hae⟩ := List.mem_map.mp h
    by_cases hk : a.1 = k
    · right
      rw [if_pos hk] at hae
      exact hae.symm
    · left
      rw [if_neg hk] at hae
      exact hae ▸ ha
  · rcases List.mem_append.mp h with h' | h'
    · exact Or.inl h'
    · exact Or.inr (List.mem_singleton.mp h')

theorem not_mem_keysOf_of_find?_none {α : Type} {m : List (String × α)}
    {k : String} (h : List.find? (fun e => e.1 = k) m = none) :
    k ∉ keysOf m := by
  intro hk
  obtain ⟨e, he, hek⟩ := List.mem_map.mp hk
  exact absurd (by simpa using hek) (by simpa using List.find?_eq_none.mp h e he)

theorem keysOf_mapSet {α : Type} (m : List (String × α)) (k : String)
    (v : α) :
    keysOf (mapSet m k v)
      = if mapHas m k then keysOf m else keysOf m ++ [k] := by
  unfold mapSet
  split
  · unfold keysOf
    rw [List.map_map]
    apply List.map_congr_left
    intro a _
    by_cases hk : a.1 = k
    · simp [hk]
    · simp [hk]
  · unfold keysOf
    simp

theorem nodup_keysOf_mapSet {α : Type} {m : List (String × α)} {k : String}
    {v : α} (h : (keysOf m).Nodup) : (keysOf (mapSet m k v)).Nodup := by
  rw [keysOf_mapSet]
  split
  · exact h
  · rename_i hhas
    have hk : k ∉ keysOf m := by
      apply not_mem_keysOf_of_find?_none
      unfold mapHas at hhas
      cases hf : List.find? (fun e => e.1 = k) m with
      | none => rfl
      | some e => exact absurd (by rw [hf]; rfl) hhas
    simp [List.nodup_append, h, hk]

theorem nodup_keysOf_mapDelete {α : Type} {m : List (String × α)}
    {k : String} (h : (keysOf m).Nodup) : (keysOf (mapDelete m k)).Nodup := by
  have hs : List.Sublist (mapDelete m k) m := List.filter_sublist m
  exact h.sublist (hs.map Prod.fst)

theorem keysOf_mapDelete_sub {α : Type} {m : List (String × α)} {k : String}
    {x : String} (h : x ∈ keysOf (mapDelete m k)) : x ∈ keysOf m := by
  obtain ⟨e, he, hex⟩ := List.mem_map.mp h
  exact hex ▸ List.mem_map_of_mem _ (mem_mapDelete he).1

theorem nodup_keys_unique {α : Type} {m : List (String × α)}
    (h : (keysOf m).Nodup) {k : String} {a b : α}
    (ha : (k, a) ∈ m) (hb : (k, b) ∈ m) : a = b := by
  induction m with
  | nil => cases ha
  | cons e t ih =>
      have hnd := h
      rw [keysOf, List.map_cons, List.nodup_cons] at hnd
      rcases List.mem_cons.mp ha with ha' | ha' <;>
        rcases List.mem_cons.mp hb with hb' | hb'
      · exact congrArg Prod.snd (ha'.trans hb'.symm)
      · refine absurd ?_ hnd.1
        have hx : k ∈ t.map Prod.fst := List.mem_map_of_mem Prod.fst hb'
        rw [← ha']
        exact hx
      · refine absurd ?_ hnd.1
        have hx : k ∈ t.map Prod.fst := List.mem_map_of_mem Prod.fst ha'
        rw [← hb']
        exact hx
      · exact ih hnd.2 ha' hb'

theorem mem_foldl_mapDelete {α : Type} :
    ∀ (ks : List String) (m : List (String × α)) (e : String × α),
      e ∈ ks.foldl mapDelete m → e ∈ m ∧ e.1 ∉ ks := by
  intro ks
  induction ks with
  | nil => exact fun m e he => ⟨he, by simp⟩
  | cons k t ih =>
      intro m e he
      rw [List.foldl_cons] at he
      obtain ⟨he', hnt⟩ := ih _ _ he
      obtain ⟨hm, hk⟩ := mem_mapDelete he'
      exact ⟨hm, by simp [hk, hnt]⟩

/-- The shape of every activeCommands mutation a single command execution
can perform: a chain of deletions at the unit's id and insertions of
freshly generated commands created at the current time. -/
inductive CmdStep (now : ℚ) (uid : String) :
    List (String × UnitCommand) → List (String × UnitCommand) → Prop where
  | refl (m : List (String × UnitCommand)) : CmdStep now uid m m
  | del (m m' : List (String × UnitCommand)) (h : CmdStep now uid m m') :
      CmdStep now uid m (mapDelete m' uid)
  | set (m m' : List (String × UnitCommand)) (k : String) (c : UnitCommand)
      (hc : c.createdAt = now)
      (hid : k = genId "move" uid now ∨ k = genId "attack" uid now)
      (h : CmdStep now uid m m') : CmdStep now uid m (mapSet m' k c)

theorem CmdStep.mem_of {now : ℚ} {uid : String}
    {m m' : List (String × UnitCommand)} (h : CmdStep now uid m m') :
    ∀ e ∈ m', e ∈ m ∨ e.2.createdAt = now := by
  induction h with
  | refl => exact fun e he => Or.inl he
  | del m₂ h ih => exact fun e he => ih e (mem_mapDelete he).1
  | set m₂ k c hc hid h ih =>
      intro e he
      rcases mem_mapSet he with he' | he'
      · exact ih e he'
      · subst he'
        exact Or.inr hc

theorem CmdStep.key_sub {now : ℚ} {uid : String}
    {m m' : List (String × UnitCommand)} (h : CmdStep now uid m m') :
    ∀ x ∈ keysOf m', x ∈ keysOf m ∨ x = genId "move" uid now
      ∨ x = genId "attack" uid now := by
  induction h with
  | refl => exact fun x hx => Or.inl hx
  | del m₂ h ih => exact fun x hx => ih x (keysOf_mapDelete_sub hx)
  | set m₂ k c hc hid h ih =>
      intro x hx
      rw [keysOf_mapSet] at hx
      split at hx
      · exact ih x hx
      · rcases List.mem_append.mp hx with hx' | hx'
        · exact ih x hx'
        · rcases hid with hid | hid
          · exact Or.inr (Or.inl ((List.mem_singleton.mp hx').trans hid))
          · exact Or.inr (Or.inr ((List.mem_singleton.mp hx').trans hid))

theorem CmdStep.nodup {now : ℚ} {uid : String}
    {m m' : List (String × UnitCommand)} (h : CmdStep now uid m m')
    (hn : (keysOf m).Nodup) : (keysOf m').Nodup := by
  induction h with
  | refl => exact hn
  | del m₂ h ih => exact nodup_keysOf_mapDelete ih
  | set m₂ k c hc hid h ih => exact nodup_keysOf_mapSet ih

theorem executeMove_ac (sqrtA : ℚ → ℚ) (units : List GameUnit)
    (buildings : List Building) (unit : GameUnit) (target : Position)
    (st : Ctrl) :
    (executeMoveCommand sqrtA units buildings unit target st).1.activeCommands
        = st.activeCommands ∨
    (executeMoveCommand sqrtA units buildings unit target st).1.activeCommands
        = mapDelete st.activeCommands unit.id := by
  unfold executeMoveCommand
  split
  · exact Or.inr rfl
  · dsimp only
    split
    · split
      · split
        · exact Or.inl (by split <;> rfl)
        · exact Or.inl (by split <;> rfl)
      · exact Or.inl (by split <;> rfl)
    · exact Or.inl (by split <;> rfl)

theorem cmdStep_executeMove (now : ℚ) (sqrtA : ℚ → ℚ)
    (units : List GameUnit) (buildings : List Building) (unit : GameUnit)
    (target : Position) (st : Ctrl) :
    CmdStep now unit.id st.activeCommands
      (executeMoveCommand sqrtA units buildings unit target st).1.activeCommands := by
  rcases executeMove_ac sqrtA units buildings unit target st with h | h <;> rw [h]
  · exact CmdStep.refl _
  · exact CmdStep.del _ _ (CmdStep.refl _)

theorem cmdStep_executeAttack (now : ℚ) (units : List GameUnit)
    (unit : GameUnit) (targetId : String) (st : Ctrl) :
    CmdStep now unit.id st.activeCommands
      (executeAttackCommand now units unit targetId st).1.activeCommands := by
  unfold executeAttackCommand performAttack issueCommand
  split
  · exact CmdStep.del _ _ (CmdStep.refl _)
  · split
    · dsimp only
      split
      · exact CmdStep.del _ _ (CmdStep.refl _)
      · exact CmdStep.refl _
    · change CmdStep _ _ _ (mapSet _ _ _)
      refine CmdStep.set _ _ _ _ ?_ (Or.inl ?_) (CmdStep.refl _) <;> rfl

theorem cmdStep_executeGather (now : ℚ) (unit : GameUnit) (zoneId : String)
    (st : Ctrl) :
    CmdStep now unit.id st.activeCommands
      (executeGatherCommand now unit zoneId st).activeCommands := by
  unfold executeGatherCommand issueCommand
  split
  · exact CmdStep.del _ _ (CmdStep.refl _)
  · split
    · exact CmdStep.del _ _ (CmdStep.refl _)
    · split
      · split
        · exact CmdStep.refl _
        · exact CmdStep.refl _
      · change CmdStep _ _ _ (mapSet _ _ _)
        refine CmdStep.set _ _ _ _ ?_ (Or.inl ?_) (CmdStep.refl _) <;> rfl

theorem cmdStep_executeGuard (now : ℚ) (units : List GameUnit)
    (unit : GameUnit) (targetId : String) (st : Ctrl) :
    CmdStep now unit.id st.activeCommands
      (executeGuardCommand now units unit targetId st).activeCommands := by
  unfold executeGuardCommand issueCommand
  split
  · exact CmdStep.del _ _ (CmdStep.refl _)
  · dsimp only
    split
    · split
      · change CmdStep _ _ _ (mapSet _ _ _)
        refine CmdStep.set _ _ _ _ ?_ (Or.inl ?_) (CmdStep.refl _) <;> rfl
      · exact CmdStep.refl _
    · change CmdStep _ _ _ (mapSet _ _ _)
      refine CmdStep.set _ _ _ _ ?_ (Or.inr ?_) ?_
      · rfl
      · rfl
      · split
        · change CmdStep _ _ _ (mapSet _ _ _)
          refine CmdStep.set _ _ _ _ ?_ (Or.inl ?_) (CmdStep.refl _) <;> rfl
        · exact CmdStep.refl _

theorem cmdStep_execCommand (now : ℚ) (sqrtA : ℚ → ℚ)
    (buildings : List Building) (units : List GameUnit) (cmd : UnitCommand)
    (unit : GameUnit) (st : Ctrl) :
    CmdStep now unit.id st.activeCommands
      (execCommand now sqrtA buildings units cmd unit st).1.activeCommands := by
  unfold execCommand
  split
  · exact cmdStep_executeMove now sqrtA units buildings unit _ st
  · exact cmdStep_executeAttack now units unit _ st
  · exact cmdStep_executeGather now unit _ st
  · unfold executePatrolCommand
    exact cmdStep_executeMove now sqrtA units buildings unit _ st
  · exact cmdStep_executeGuard now units unit _ st
  · exact CmdStep.refl _

theorem unitIds_updateUnit (units : List GameUnit) (uid : String)
    (f : GameUnit → GameUnit) (hf : ∀ u, (f u).id = u.id) :
    unitIds (updateUnit units uid f) = unitIds units := by
  induction units with
  | nil => rfl
  | cons u rest ih =>
      unfold updateUnit
      split
      · unfold unitIds
        simp only [List.map_cons]
        rw [hf u]
      · unfold unitIds at ih ⊢
        simp only [List.map_cons, ih]

theorem unitIds_executeMove (sqrtA : ℚ → ℚ) (units : List GameUnit)
    (buildings : List Building) (unit : GameUnit) (target : Position)
    (st : Ctrl) :
    unitIds (executeMoveCommand sqrtA units buildings unit target st).2
      = unitIds units := by
  unfold executeMoveCommand
  split
  · rfl
  · dsimp only
    split
    · split
      · split
        · exact unitIds_updateUnit units unit.id _ fun u => rfl
        · exact unitIds_updateUnit units unit.id _ fun u => rfl
      · rfl
    · rfl

theorem unitIds_execCommand (now : ℚ) (sqrtA : ℚ → ℚ)
    (buildings : List Building) (units : List GameUnit) (cmd : UnitCommand)
    (unit : GameUnit) (st : Ctrl) :
    unitIds (execCommand now sqrtA buildings units cmd unit st).2
      = unitIds units := by
  unfold execCommand
  split
  · exact unitIds_executeMove sqrtA units buildings unit _ st
  · unfold executeAttackCommand performAttack
    split
    · rfl
    · split
      · dsimp only
        split
        · exact unitIds_updateUnit units _ _ fun u => rfl
        · exact unitIds_updateUnit units _ _ fun u => rfl
      · rfl
  · rfl
  · unfold executePatrolCommand
    exact unitIds_executeMove sqrtA units buildings unit _ st
  · rfl
  · rfl

theorem genId_move_mem {ids : List String} {i : String} (h : i ∈ ids)
    (now : ℚ) : genId "move" i now ∈ genKeys ids now := by
  unfold genKeys
  exact List.mem_flatMap.mpr ⟨i, h, by simp⟩

theorem genId_attack_mem {ids : List String} {i : String} (h : i ∈ ids)
    (now : ℚ) : genId "attack" i now ∈ genKeys ids now := by
  unfold genKeys
  exact List.mem_flatMap.mpr ⟨i, h, by simp⟩

theorem genKeys_length (ids : List String) (now : ℚ) :
    (genKeys ids now).length = 2 * ids.length := by
  unfold genKeys
  induction ids with
  | nil => rfl
  | cons i t ih =>
      simp only [List.flatMap_cons, List.length_append, List.length_cons, ih]
      simp only [List.length_cons, List.length_nil]
      omega

/-- All keys reachable during one processCommands pass: the keys present
plus every generatable command id. -/
def keySetF (st : Ctrl) (units : List GameUnit) (now : ℚ) : Finset String :=
  (keysOf st.activeCommands).toFinset ∪ (genKeys (unitIds units) now).toFinset

theorem processLoop_no_stale (now : ℚ) (sqrtA : ℚ → ℚ)
    (buildings : List Building) :
    ∀ (fuel : ℕ) (done toRemove : List String) (st : Ctrl)
      (units : List GameUnit),
      (keySetF st units now \ done.toFinset).card < fuel →
      (keysOf st.activeCommands).Nodup →
      (∀ e ∈ st.activeCommands, e.1 ∈ done →
        now - e.2.createdAt ≤ 60000 ∨ e.1 ∈ toRemove) →
      ∀ e ∈ (processLoop now sqrtA buildings fuel done toRemove st units).1.activeCommands,
        now - e.2.createdAt ≤ 60000 := by
  intro fuel
  induction fuel with
  | zero =>
      intro done toRemove st units hm
      exact absurd hm (Nat.not_lt_zero _)
  | succ n ih =>
      intro done toRemove st units hm hnd hinv e he
      cases hfu : firstUnvisited st.activeCommands done with
      | none =>
          simp only [processLoop, hfu] at he
          have he' : e ∈ toRemove.foldl mapDelete st.activeCommands := he
          obtain ⟨hem, hnr⟩ := mem_foldl_mapDelete toRemove st.activeCommands e he'
          have hkd : e.1 ∈ done := by
            have h1 := List.find?_eq_none.mp hfu e hem
            simpa using h1
          rcases hinv e hem hkd with h | h
          · exact h
          · exact absurd h hnr
      | some kc =>
          obtain ⟨k, cmd⟩ := kc
          simp only [processLoop, hfu] at he
          have hkmem : (k, cmd) ∈ st.activeCommands := List.mem_of_find?_eq_some hfu
          have hknd : k ∉ done := by
            have h1 := List.find?_some hfu
            simpa using h1
          have hkK : k ∈ keySetF st units now :=
            Finset.mem_union_left _
              (List.mem_toFinset.mpr (List.mem_map_of_mem Prod.fst hkmem))
          have hksd : k ∈ keySetF st units now \ done.toFinset :=
            Finset.mem_sdiff.mpr ⟨hkK, fun hc => hknd (List.mem_toFinset.mp hc)⟩
          cases hfind : units.find? (fun u => u.id = cmd.unitId) with
          | none =>
              simp only [hfind] at he
              refine ih (k :: done) (toRemove ++ [k]) st units ?_ hnd ?_ e he
              · have hsub : keySetF st units now \ (k :: done).toFinset
                    ⊆ (keySetF st units now \ done.toFinset).erase k := by
                  intro x hx
                  obtain ⟨hxs, hxd⟩ := Finset.mem_sdiff.mp hx
                  rw [List.toFinset_cons] at hxd
                  refine Finset.mem_erase.mpr
                    ⟨fun hxk => hxd (hxk ▸ Finset.mem_insert_self _ _),
                     Finset.mem_sdiff.mpr
                       ⟨hxs, fun hc => hxd (Finset.mem_insert_of_mem hc)⟩⟩
                exact lt_of_lt_of_le
                  (lt_of_le_of_lt (Finset.card_le_card hsub)
                    (Finset.card_erase_lt_of_mem hksd))
                  (Nat.lt_succ_iff.mp hm)
              · intro e' he' hd'
                rcases List.mem_cons.mp hd' with h1 | h1
                · exact Or.inr (List.mem_append.mpr
                    (Or.inr (h1 ▸ List.mem_singleton_self k)))
                · rcases hinv e' he' h1 with h2 | h2
                  · exact Or.inl h2
                  · exact Or.inr (List.mem_append.mpr (Or.inl h2))
          | some unit =>
              simp only [hfind] at he
              have hstep := cmdStep_execCommand now sqrtA buildings units cmd unit st
              have hids := unitIds_execCommand now sqrtA buildings units cmd unit st
              have humem : unit ∈ units := List.mem_of_find?_eq_some hfind
              have huid : unit.id ∈ unitIds units := List.mem_map_of_mem _ humem
              refine ih (k :: done) _ _ _ ?_ (hstep.nodup hnd) ?_ e he
              · have hsub : keySetF
                      (execCommand now sqrtA buildings units cmd unit st).1
                      (execCommand now sqrtA buildings units cmd unit st).2 now
                      \ (k :: done).toFinset
                    ⊆ (keySetF st units now \ done.toFinset).erase k := by
                  intro x hx
                  obtain ⟨hxs, hxd⟩ := Finset.mem_sdiff.mp hx
                  rw [List.toFinset_cons] at hxd
                  have hxk : ¬ x = k := fun h => hxd (h ▸ Finset.mem_insert_self _ _)
                  have hxd' : x ∉ done.toFinset :=
                    fun hc => hxd (Finset.mem_insert_of_mem hc)
                  refine Finset.mem_erase.mpr
                    ⟨hxk, Finset.mem_sdiff.mpr ⟨?_, hxd'⟩⟩
                  rcases Finset.mem_union.mp hxs with h1 | h1
                  · rcases hstep.key_sub x (List.mem_toFinset.mp h1) with h2 | h2 | h2
                    · exact Finset.mem_union_left _ (List.mem_toFinset.mpr h2)
                    · refine Finset.mem_union_right _ (List.mem_toFinset.mpr ?_)
                      rw [h2]
                      exact genId_move_mem huid now
                    · refine Finset.mem_union_right _ (List.mem_toFinset.mpr ?_)
                      rw [h2]
                      exact genId_attack_mem huid now
                  · rw [hids] at h1
                    exact Finset.mem_union_right _ h1
                exact lt_of_lt_of_le
                  (lt_of_le_of_lt (Finset.card_le_card hsub)
                    (Finset.card_erase_lt_of_mem hksd))
                  (Nat.lt_succ_iff.mp hm)
              · intro e' he' hd'
                rcases hstep.mem_of e' he' with hmem | hfresh
                · rcases List.mem_cons.mp hd' with h1 | h1
                  · have hkpair : (k, e'.2) ∈ st.activeCommands := by
                      rw [← h1]
                      exact hmem
                    have heq : e'.2 = cmd := nodup_keys_unique hnd hkpair hkmem
                    by_cases hstale : now - cmd.createdAt > 60000
                    · right
                      rw [if_pos hstale]
                      exact List.mem_append.mpr
                        (Or.inr (h1 ▸ List.mem_singleton_self k))
                    · left
                      rw [heq]
                      exact not_lt.mp hstale
                  · rcases hinv e' hmem h1 with h2 | h2
                    · exact Or.inl h2
                    · right
                      split
                      · exact List.mem_append.mpr (Or.inl h2)
                      · exact h2
                · left
                  rw [hfresh, sub_self]
                  norm_num

/-- C7.  After a processCommands pass at simulated time now, every command
remaining in the active-command table was created at most 60000 ms before
now: commands older than that are force-removed regardless of kind or
completion state, and commands issued during the pass carry createdAt =
now.  The hypothesis states the Map invariant that table keys are
distinct, which holds for every table built through Map.set. -/
theorem processCommands_no_stale (now : ℚ) (sqrtA : ℚ → ℚ)
    (units : List GameUnit) (buildings : List Building) (st : Ctrl)
    (hnd : (keysOf st.activeCommands).Nodup) :
    ∀ e ∈ (processCommands now sqrtA units buildings st).1.activeCommands,
      now - e.2.createdAt ≤ 60000 := by
  intro e he
  refine processLoop_no_stale now sqrtA buildings
    (st.activeCommands.length + 2 * units.length + 1) [] [] st units
    ?_ hnd ?_ e he
  · have h1 : (keySetF st units now \ ([] : List String).toFinset).card
        = (keySetF st units now).card := by simp
    rw [h1]
    have h2 := Finset.card_union_le (keysOf st.activeCommands).toFinset
      (genKeys (unitIds units) now).toFinset
    have h3 := List.toFinset_card_le (keysOf st.activeCommands)
    have h4 := List.toFinset_card_le (genKeys (unitIds units) now)
    have h5 : (keysOf st.activeCommands).length = st.activeCommands.length :=
      List.length_map _ _
    have h6 : (genKeys (unitIds units) now).length = 2 * units.length := by
      rw [genKeys_length]
      unfold unitIds
      rw [List.length_map]
    unfold keySetF at h2 ⊢
    omega
  · intro e' _ hd'
    exact absurd hd' (List.not_mem_nil _)

/-! ### Concrete controller states and the remaining claim theorems -/

/-- Controller with empty tables over the open grid. -/
def ctrlEmpty : Ctrl :=
  { tm := tmOpen3, activeCommands := [], threatMap := [], unitPaths := [] }

/-- First command for unit u1 (id a). -/
def cmdA : UnitCommand :=
  { id := "a", unitId := "u1", ctype := .move, target := .pos ⟨0, 0⟩,
    priority := 5, createdAt := 0, issuedBy := .player }

/-- Second command for the same unit u1 (id b). -/
def cmdB : UnitCommand :=
  { id := "b", unitId := "u1", ctype := .move, target := .pos ⟨1, 1⟩,
    priority := 5, createdAt := 0, issuedBy := .player }

/-- C1.  The active-command table is keyed by command.id, not unit id:
issuing a second command for a unit that already has one leaves BOTH
commands live for that unit, contradicting the one-active-command
invariant (the rest of the code deletes and tests by unit.id, which is
the intent the table keying breaks). -/
theorem issueCommand_keeps_both_commands :
    ((issueCommand (issueCommand ctrlEmpty cmdA) cmdB).activeCommands.filter
        (fun e => e.2.unitId = "u1")).length = 2 ∧
    mapGet (issueCommand (issueCommand ctrlEmpty cmdA) cmdB).activeCommands "a"
        = some cmdA ∧
    mapGet (issueCommand (issueCommand ctrlEmpty cmdA) cmdB).activeCommands "b"
        = some cmdB := by
  refine ⟨?_, ?_, ?_⟩ <;> with_unfolding_all rfl

/-- Move command for u1 whose target is the unit's own position. -/
def cmdMoveDone : UnitCommand :=
  { id := "move_u1_0", unitId := "u1", ctype := .move, target := .pos ⟨5, 5⟩,
    priority := 5, createdAt := 0, issuedBy := .player }

/-- Controller holding only that command, keyed by its command id. -/
def ctrlC4 : Ctrl :=
  { tm := tmOpen3, activeCommands := [("move_u1_0", cmdMoveDone)],
    threatMap := [], unitPaths := [] }

/-- C4.  Unit u1 stands exactly on the move target (distance 0, within
the epsilon of 1), yet after processCommands the command is still in the
table: the goal-reached branch deletes key unit.id (u1) while the entry
is keyed by the command id (move_u1_0), so the deletion misses. -/
theorem processCommands_goal_reached_command_remains :
    sqrtLtC (dist2 unitA.position ⟨5, 5⟩) 1 = true ∧
    mapGet (processCommands 0 id [unitA] [] ctrlC4).1.activeCommands "move_u1_0"
        = some cmdMoveDone := by
  refine ⟨?_, ?_⟩ <;> with_unfolding_all rfl

/-- Witness for C7 at the concrete state: the surviving fresh command. -/
theorem processCommands_no_stale_witness :
    (0 : ℚ) - cmdMoveDone.createdAt ≤ 60000 := by
  have h : (processCommands 0 id [unitA] [] ctrlC4).1.activeCommands
      = [("move_u1_0", cmdMoveDone)] := by
    with_unfolding_all rfl
  refine processCommands_no_stale 0 id [unitA] [] ctrlC4 ?_
    ("move_u1_0", cmdMoveDone) ?_
  · have hk : keysOf ctrlC4.activeCommands = ["move_u1_0"] := rfl
    rw [hk]
    exact List.nodup_singleton _
  · rw [h]
    exact List.mem_singleton_self _

theorem mem_foldl_mapSet {α β : Type} (key : β → String) (val : β → α) :
    ∀ (l : List β) (m : List (String × α)) (e : String × α),
      e ∈ l.foldl (fun acc x => mapSet acc (key x) (val x)) m →
      e ∈ m ∨ ∃ x ∈ l, e.2 = val x := by
  intro l
  induction l with
  | nil => exact fun m e he => Or.inl he
  | cons x xs ih =>
      intro m e he
      rw [List.foldl_cons] at he
      rcases ih _ _ he with h | h
      · rcases mem_mapSet h with h' | h'
        · exact Or.inl h'
        · exact Or.inr ⟨x, List.mem_cons_self x xs, by rw [h']⟩
      · obtain ⟨y, hy, he2⟩ := h
        exact Or.inr ⟨y, List.mem_cons_of_mem _ hy, he2⟩

/-- C8.  Every threat entry returned by getThreatMap after an update has
been seen within the last 30000 ms: entries older than the TTL were
pruned at the start of updateThreatAssessment and refreshed entries carry
lastSeen = now, so a stale entry not refreshed by the current enemy
snapshot cannot appear in the result (and the behaviors, which run after
the update inside the same tick, never consult one). -/
theorem getThreatMap_no_stale (now : ℚ) (enemies : List GameUnit)
    (st : Ctrl) :
    ∀ t ∈ getThreatMap (updateThreatAssessment now enemies st),
      now - t.lastSeen ≤ 30000 := by
  intro t ht
  simp only [getThreatMap, List.mem_map] at ht
  obtain ⟨e, he, rfl⟩ := ht
  have he' : e ∈ enemies.foldl
      (fun m enemy => mapSet m enemy.id
        { enemyUnitId := enemy.id
          position := enemy.position
          threatLevel := calculateThreatLevelUnit enemy
          utype := enemy.utype
          lastSeen := now
          isEngaged := false })
      (st.threatMap.filter fun e => ¬ (now - e.2.lastSeen > 30000)) := he
  rcases mem_foldl_mapSet (fun u : GameUnit => u.id)
      (fun enemy => { enemyUnitId := enemy.id
                      position := enemy.position
                      threatLevel := calculateThreatLevelUnit enemy
                      utype := enemy.utype
                      lastSeen := now
                      isEngaged := false })
      enemies _ e he' with h | h
  · have h2 := List.mem_filter.mp h
    have h3 : ¬ (now - e.2.lastSeen > 30000) := by simpa using h2.2
    exact not_lt.mp h3
  · obtain ⟨x, _, h2⟩ := h
    calc now - e.2.lastSeen = now - now := by rw [h2]
      _ = 0 := sub_self now
      _ ≤ 30000 := by norm_num

/-- Threat record produced for unitA at time 0. -/
def threatA : Threat :=
  { enemyUnitId := "u1", position := ⟨5, 5⟩, threatLevel := 3 / 10,
    utype := .infantry, lastSeen := 0, isEngaged := false }

/-- Witness for C8 at a concrete snapshot. -/
theorem getThreatMap_no_stale_witness :
    (0 : ℚ) - threatA.lastSeen ≤ 30000 := by
  have h : getThreatMap (updateThreatAssessment 0 [unitA] ctrlEmpty)
      = [threatA] := by
    with_unfolding_all rfl
  refine getThreatMap_no_stale 0 [unitA] ctrlEmpty threatA ?_
  rw [h]
  exact List.mem_singleton_self _

end WIM
